import Mathlib

/-!
Verification of the AVF player core (avfplayer.py) against its
natural-language specification.

Modelling conventions, used throughout:
* a byte buffer is a `List Nat` (bytes are the list entries);
* numpy arrays written by index assignment are `List` values updated with
  `List.set`; a sequence of assignments is a list of `(index, value)` pairs
  applied in order by `writeList`, so that assignment order is preserved and
  can be reasoned about;
* Python float arithmetic is modelled exactly: decimal literals become the
  rationals they denote, `math.cos`/`math.sin` become `Real.cos`/`Real.sin`
  (so the palette lives over `ℝ`), and the audio pipeline, which involves no
  transcendental function, lives over `ℚ`;
* `int(x)` in Python truncates toward zero; it is modelled by `truncQ`/`truncR`;
* loops with `break` are modelled by structural recursion on the remaining
  iteration count, with the break condition as the stopping guard.
-/

/-- FRAME_SIZE_BYTES constant (avfplayer.py line 40). -/
def FRAME_SIZE_BYTES : Nat := 8704

/-- HEADER_SIZE constant (avfplayer.py line 41). -/
def HEADER_SIZE : Nat := 8192

/-- Container reader (lines 138-141): if the file size is not a multiple of
the frame size, seek past the fixed-size header before reading; a seek past
the end of the file yields an empty read, which `List.drop` reproduces. -/
def rawData (file : List Nat) : List Nat :=
  if file.length % FRAME_SIZE_BYTES ≠ 0 then file.drop HEADER_SIZE else file

/-- Frame count (line 143): `num_frames = len(raw) // FRAME_SIZE_BYTES`. -/
def numFrames (file : List Nat) : Nat :=
  (rawData file).length / FRAME_SIZE_BYTES

/-- Frame chunk `i` (lines 152-153): `raw[base : base + FRAME_SIZE_BYTES]`. -/
def chunkAt (raw : List Nat) (i : Nat) : List Nat :=
  (raw.drop (i * FRAME_SIZE_BYTES)).take FRAME_SIZE_BYTES

/-- A sequence of indexed assignments `a[i] = v`, applied in order. -/
def writeList {α : Type} (ws : List (Nat × α)) (l : List α) : List α :=
  ws.foldl (fun acc w => acc.set w.1 w.2) l

theorem writeList_nil {α : Type} (l : List α) : writeList [] l = l := rfl

theorem writeList_cons {α : Type} (w : Nat × α) (ws : List (Nat × α)) (l : List α) :
    writeList (w :: ws) l = writeList ws (l.set w.1 w.2) := rfl

theorem writeList_append {α : Type} (a b : List (Nat × α)) (l : List α) :
    writeList (a ++ b) l = writeList b (writeList a l) := by
  simp [writeList, List.foldl_append]

theorem writeList_length {α : Type} (ws : List (Nat × α)) (l : List α) :
    (writeList ws l).length = l.length := by
  induction ws generalizing l with
  | nil => rfl
  | cons w ws ih => rw [writeList_cons, ih, List.length_set]

/-- An index hit by none of the writes keeps its old value. -/
theorem writeList_getD_not_mem {α : Type} (ws : List (Nat × α)) (l : List α)
    (i : Nat) (d : α) (h : i ∉ ws.map Prod.fst) :
    (writeList ws l).getD i d = l.getD i d := by
  induction ws generalizing l with
  | nil => rfl
  | cons w ws ih =>
      simp only [List.map_cons, List.mem_cons, not_or] at h
      rw [writeList_cons, ih _ h.2, List.getD_eq_getElem?_getD,
        List.getD_eq_getElem?_getD, List.getElem?_set,
        if_neg (fun hh : w.1 = i => h.1 hh.symm)]

/-- When every write stores a value determined by its own index, a written
index ends holding that value, regardless of duplicate writes. -/
theorem writeList_getD_fn {α : Type} (f : Nat → α) (js : List Nat) (l : List α)
    (i : Nat) (d : α) (hlt : ∀ j ∈ js, j < l.length) (hm : i ∈ js) :
    (writeList (js.map fun j => (j, f j)) l).getD i d = f i := by
  induction js generalizing l with
  | nil => cases hm
  | cons j js ih =>
      rw [List.map_cons, writeList_cons]
      by_cases hmem : i ∈ js
      · exact ih (l.set j (f j)) (by simpa using fun a ha => hlt a (List.mem_cons_of_mem _ ha)) hmem
      · have hij : i = j := by
          rcases List.mem_cons.1 hm with h | h
          · exact h
          · exact absurd h hmem
        subst hij
        rw [writeList_getD_not_mem _ _ _ _ (by simpa using hmem),
          List.getD_eq_getElem?_getD, List.getElem?_set]
        simp [hlt i (List.mem_cons_self i js)]

/-- Per-frame video frames (lines 151-162, video part). -/
def sliceL (c : List Nat) (a b : Nat) : List Nat := (c.drop a).take (b - a)

/-- The 192x40 zero matrix `np.zeros((HEIGHT, 40))` (line 156). -/
def videoInit : List (List Nat) := List.replicate 192 (List.replicate 40 0)

/-- The row assignments of the video extraction loop (lines 157-161), in
program order: for each sub-block `b`, rows `3b`, `3b+1`, `3b+2` receive the
chunk slices `[128b+1, 128b+41)`, `[128b+45, 128b+85)`, `[128b+88, 128b+128)`. -/
def videoWrites (chunk : List Nat) : List (Nat × List Nat) :=
  (List.range 64).flatMap fun b =>
    [(3*b, sliceL chunk (128*b+1) (128*b+41)),
     (3*b+1, sliceL chunk (128*b+45) (128*b+85)),
     (3*b+2, sliceL chunk (128*b+88) (128*b+128))]

/-- Video extraction for one frame chunk (lines 156-162). -/
def videoExtract (chunk : List Nat) : List (List Nat) :=
  writeList (videoWrites chunk) videoInit

/-- The list of decoded video frames (lines 151-162). -/
def videoFrames (file : List Nat) : List (List (List Nat)) :=
  (List.range (numFrames file)).map fun i => videoExtract (chunkAt (rawData file) i)

/-- Standard-dependent first audio offset (line 147): 120 for PAL, 70 for NTSC. -/
def audioOff1 (isPal : Bool) : Nat := if isPal then 120 else 70

/-- Second audio offset (line 147): 52 for both standards. -/
def audioOff2 : Nat := 52

/-- AudioTap length (line 148): 312 for PAL, 262 for NTSC. -/
def audio_len (isPal : Bool) : Nat := if isPal then 312 else 262

/-- Frame rate (line 56): 49.86 for PAL, 59.92 for NTSC, as exact rationals. -/
def fps (isPal : Bool) : ℚ := if isPal then 4986/100 else 5992/100

/-- The nine assignments performed by one iteration of the first audio loop
(lines 168-172), in program order, reading the nine consecutive bytes at the
cursor `ptr`. -/
def tapWrites (chunk : List Nat) (o1 o2 y ptr : Nat) : List (Nat × Nat) :=
  [(y, chunk.getD ptr 0),
   (y + o1, chunk.getD (ptr+1) 0),
   (y + 32 + o1, chunk.getD (ptr+2) 0),
   (y + 64 + o1, chunk.getD (ptr+3) 0),
   (y + 96 + o1, chunk.getD (ptr+4) 0),
   (y + 128 + o1, chunk.getD (ptr+5) 0),
   (y + 160 + o1, chunk.getD (ptr+6) 0),
   (y + o2, chunk.getD (ptr+7) 0),
   (y + 32 + o2, chunk.getD (ptr+8) 0)]

/-- First audio loop (lines 166-172): `for y in range(32)`, breaking when
`ptr + 9 >= len(chunk)`; each surviving iteration performs the nine
assignments of `tapWrites` and advances the cursor by 10.  The result is the
ordered assignment list together with the final cursor. -/
def audioPhase1 (chunk : List Nat) (o1 o2 : Nat) :
    Nat → Nat → Nat → List (Nat × Nat) × Nat
  | 0, _, ptr => ([], ptr)
  | fuel+1, y, ptr =>
    if chunk.length ≤ ptr + 9 then ([], ptr)
    else
      let rest := audioPhase1 chunk o1 o2 fuel (y+1) (ptr+10)
      (tapWrites chunk o1 o2 y ptr ++ rest.1, rest.2)

/-- Second audio loop (lines 173-179): `for y in range(19)`, breaking when
`ptr >= len(chunk)`; one byte goes to index `y+32` and the cursor advances by
1; on PAL a second byte (when available) goes to `y+64+off2` with the cursor
advancing by 1, then 8 further bytes are skipped; on NTSC 9 bytes are
skipped. -/
def audioPhase2 (chunk : List Nat) (isPal : Bool) (o2 : Nat) :
    Nat → Nat → Nat → List (Nat × Nat) × Nat
  | 0, _, ptr => ([], ptr)
  | fuel+1, y, ptr =>
    if chunk.length ≤ ptr then ([], ptr)
    else
      if isPal then
        if ptr + 1 < chunk.length then
          let rest := audioPhase2 chunk isPal o2 fuel (y+1) (ptr+10)
          ((y + 32, chunk.getD ptr 0) :: (y + 64 + o2, chunk.getD (ptr+1) 0) :: rest.1, rest.2)
        else
          let rest := audioPhase2 chunk isPal o2 fuel (y+1) (ptr+9)
          ((y + 32, chunk.getD ptr 0) :: rest.1, rest.2)
      else
        let rest := audioPhase2 chunk isPal o2 fuel (y+1) (ptr+10)
        ((y + 32, chunk.getD ptr 0) :: rest.1, rest.2)

/-- The full ordered assignment list of the audio extraction for one chunk
(lines 165-180): the first loop starting at cursor 8192, the second loop, and
the final conditional assignment to index 51. -/
def audioTrace (chunk : List Nat) (isPal : Bool) : List (Nat × Nat) :=
  let p1 := audioPhase1 chunk (audioOff1 isPal) audioOff2 32 0 8192
  let p2 := audioPhase2 chunk isPal audioOff2 19 0 p1.2
  let w3 : List (Nat × Nat) :=
    if p2.2 < chunk.length then [(51, chunk.getD p2.2 0)] else []
  p1.1 ++ p2.1 ++ w3

/-- AudioTap of one chunk (lines 165-181): a 512-entry array pre-filled with
the silence value 50, overwritten by the extraction assignments in order, then
truncated to the first `audio_len` entries. -/
def audioTap (chunk : List Nat) (isPal : Bool) : List Nat :=
  (writeList (audioTrace chunk isPal) (List.replicate 512 50)).take (audio_len isPal)

/-- The per-frame audio chunks (lines 151, 165-181). -/
def audioChunks (file : List Nat) (isPal : Bool) : List (List Nat) :=
  (List.range (numFrames file)).map fun i => audioTap (chunkAt (rawData file) i) isPal

/-- Concatenated raw audio (line 184): all taps in frame order, or 1000 zero
samples when there are no frames. -/
def rawSamples (file : List Nat) (isPal : Bool) : List Nat :=
  if (audioChunks file isPal).isEmpty then List.replicate 1000 0
  else (audioChunks file isPal).flatten

/-- Centering of one sample (line 186): clip to [0, 100], then subtract 50. -/
def centerQ (v : Nat) : ℚ := min 100 (max 0 (v : ℚ)) - 50

/-- The centered raw audio stream (lines 184-186). -/
def raw_audio (file : List Nat) (isPal : Bool) : List ℚ :=
  (rawSamples file isPal).map centerQ

/-- np.linspace(0, 1, n): the n points k/(n-1); for n = 1 the single point 0
(division by zero is zero in ℚ, matching numpy, which returns [0.0]). -/
def linspaceQ (n : Nat) : List ℚ :=
  (List.range n).map fun k : Nat => (k : ℚ) / ((n - 1 : Nat) : ℚ)

/-- Target sample count (lines 189-190): `int(num_frames / fps * mix_freq)`;
the value is nonnegative, so Python int() truncation is the floor. -/
def tgt_samples (file : List Nat) (isPal : Bool) (rate : Nat) : Nat :=
  (((numFrames file : ℚ) / fps isPal) * rate).floor.toNat

/-- One-point linear interpolation over an increasing abscissa list with its
ordinates, following np.interp: at or before the first point the first
ordinate, between two consecutive points the linear blend, past the last
point the last ordinate. -/
def interpPt (t : ℚ) : List (ℚ × ℚ) → ℚ
  | [] => 0
  | [p] => p.2
  | p :: q :: rest =>
    if t ≤ p.1 then p.2
    else if t ≤ q.1 then p.2 + (q.2 - p.2) * ((t - p.1) / (q.1 - p.1))
    else interpPt t (q :: rest)

/-- Time-stretch resampling (lines 193-197): np.interp of the target time
grid against the source time grid and the centered samples. -/
def resampled (file : List Nat) (isPal : Bool) (rate : Nat) : List ℚ :=
  (linspaceQ (tgt_samples file isPal rate)).map fun t =>
    interpPt t ((linspaceQ (raw_audio file isPal).length).zip (raw_audio file isPal))

/-- Gain stage of line 199: multiply by 500. -/
def scaledAudio (file : List Nat) (isPal : Bool) (rate : Nat) : List ℚ :=
  (resampled file isPal rate).map fun s => s * 500

/-- Python int() truncation toward zero on an exact rational. -/
def truncQ (q : ℚ) : ℤ := if 0 ≤ q then ⌊q⌋ else -⌊-q⌋

/-- The clip of line 199: clamp to [-32000, 32000]. -/
def clip32 (q : ℚ) : ℚ := max (-32000) (min 32000 q)

/-- The mono 16-bit PCM track (line 199): gain, clip, quantize. The values
are clipped into [-32000, 32000] first, so the int16 cast cannot wrap. -/
def pcm_track (file : List Nat) (isPal : Bool) (rate : Nat) : List ℤ :=
  (scaledAudio file isPal rate).map fun s => truncQ (clip32 s)

/-- Python int() truncation toward zero on a real value. -/
noncomputable def truncR (x : ℝ) : ℤ := if 0 ≤ x then ⌊x⌋ else -⌊-x⌋

/-- The channel clamp of lines 120-122: `max(0, min(255, n))`. -/
def clamp255 (n : ℤ) : ℤ := max 0 (min 255 n)

/-- Grayscale palette entry (lines 96-98): `val = int((luma / 15.0) * 255)`,
stored as `[val, val, val]`. -/
noncomputable def grayColor (luma : Nat) : ℤ × ℤ × ℤ :=
  let val := truncR (((luma : ℝ) / 15) * 255)
  (val, val, val)

/-- Color palette entry (lines 101-123): the YUV synthesis for a chroma in
1..15 and a luma in 0..15, each channel scaled by 255, truncated by int() and
clamped to [0, 255]. -/
noncomputable def gtiaColor (phase_shift saturation : ℝ) (chroma luma : Nat) : ℤ × ℤ × ℤ :=
  let angle : ℝ := ((chroma : ℝ) - 1) * (2 * Real.pi / 15) + phase_shift
  let y : ℝ := (luma : ℝ) / 15
  let s : ℝ := saturation * 0.5
  let u : ℝ := s * Real.cos angle
  let v : ℝ := s * Real.sin angle
  let r : ℝ := y + 1.140 * v
  let g : ℝ := y - 0.395 * u - 0.581 * v
  let b : ℝ := y + 2.032 * u
  (clamp255 (truncR (r * 255)), clamp255 (truncR (g * 255)), clamp255 (truncR (b * 255)))

/-- The assignments of the palette generator (lines 93-127), in program
order: first the grayscale loop over indices 0..15, then the color loops
writing index `(chroma << 4) | luma` for chroma in 1..15 and luma in 0..15. -/
noncomputable def paletteWrites (phase_shift saturation : ℝ) : List (Nat × (ℤ × ℤ × ℤ)) :=
  ((List.range 16).map fun luma => (luma, grayColor luma)) ++
    ((List.range 15).flatMap fun c =>
      (List.range 16).map fun luma =>
        (((c+1) <<< 4) ||| luma, gtiaColor phase_shift saturation (c+1) luma))

/-- The palette generator `_generate_gtia_palette` (lines 90-129): a 256-entry
table of zero triplets, overwritten by the grayscale and color loops. -/
noncomputable def generate_gtia_palette (phase_shift saturation : ℝ) : List (ℤ × ℤ × ℤ) :=
  writeList (paletteWrites phase_shift saturation) (List.replicate 256 (0, 0, 0))

/-- For a low nibble, the or with a shifted high nibble is plain addition. -/
theorem lor_sixteen (c l : Nat) (h : l < 16) : ((c <<< 4) ||| l) = 16 * c + l := by
  apply Nat.eq_of_testBit_eq
  intro i
  rw [Nat.testBit_lor, Nat.shiftLeft_eq]
  rw [show (16 : ℕ) * c + l = 2^4 * c + l by ring,
    Nat.testBit_mul_pow_two_add c (show l < 2^4 by omega) i,
    show c * 2^4 = 2^4 * c by ring, Nat.testBit_mul_pow_two]
  by_cases hi : i < 4
  · simp [hi, Nat.not_le.2 hi]
  · have h4 : 4 ≤ i := Nat.le_of_not_lt hi
    have hl : l < 2 ^ i :=
      lt_of_lt_of_le h (le_trans (by norm_num) (Nat.pow_le_pow_right (by norm_num) h4))
    simp [hi, h4, Nat.testBit_lt_two_pow hl]

theorem flatMap_congr_mem {α β : Type} (l : List α) (f g : α → List β)
    (h : ∀ a ∈ l, f a = g a) : l.flatMap f = l.flatMap g := by
  induction l with
  | nil => rfl
  | cons a l ih =>
      rw [List.flatMap_cons, List.flatMap_cons, h a (List.mem_cons_self a l),
        ih fun b hb => h b (List.mem_cons_of_mem _ hb)]

/-- The flat index list of the color loops. -/
def colorIdx : List Nat :=
  (List.range 15).flatMap fun c => (List.range 16).map fun l => 16 * (c + 1) + l

theorem colorIdx_ge (j : Nat) (hj : j ∈ colorIdx) : 16 ≤ j ∧ j < 256 := by
  simp only [colorIdx, List.mem_flatMap, List.mem_map, List.mem_range] at hj
  obtain ⟨c, hc, l, hl, rfl⟩ := hj
  omega

theorem colorWrites_eq (p s : ℝ) :
    ((List.range 15).flatMap fun c =>
      (List.range 16).map fun luma =>
        (((c+1) <<< 4) ||| luma, gtiaColor p s (c+1) luma)) =
    colorIdx.map fun j => (j, gtiaColor p s (j / 16) (j % 16)) := by
  rw [colorIdx, List.map_flatMap]
  apply flatMap_congr_mem
  intro c hc
  rw [List.map_map]
  apply List.map_congr_left
  intro l hl
  rw [List.mem_range] at hl
  have hidx : ((c+1) <<< 4) ||| l = 16 * (c + 1) + l := lor_sixteen (c+1) l hl
  have hdiv : (16 * (c + 1) + l) / 16 = c + 1 := by omega
  have hmod : (16 * (c + 1) + l) % 16 = l := by omega
  simp only [Function.comp_apply, hidx, hdiv, hmod]

theorem palette_length (p s : ℝ) : (generate_gtia_palette p s).length = 256 := by
  rw [generate_gtia_palette, writeList_length, List.length_replicate]

/-- Palette access for the grayscale entries: index `luma < 16` holds the
grayscale value, untouched by the color loops. -/
theorem palette_getD_gray (p s : ℝ) (luma : Nat) (h : luma < 16) :
    (generate_gtia_palette p s).getD luma (0, 0, 0) = grayColor luma := by
  rw [generate_gtia_palette, paletteWrites, writeList_append, colorWrites_eq,
    writeList_getD_not_mem]
  · exact writeList_getD_fn grayColor (List.range 16) _ luma (0,0,0)
      (fun j hj => by
        rw [List.mem_range] at hj
        rw [List.length_replicate]; omega)
      (List.mem_range.2 h)
  · rw [List.map_map]
    intro hmem
    have : luma ∈ colorIdx := by simpa using hmem
    have := colorIdx_ge luma this
    omega

/-- Palette access for the color entries: index `16 * chroma + luma` holds the
YUV-synthesized value. -/
theorem palette_getD_color (p s : ℝ) (chroma luma : Nat)
    (h1 : 1 ≤ chroma) (h2 : chroma ≤ 15) (h3 : luma < 16) :
    (generate_gtia_palette p s).getD (16 * chroma + luma) (0, 0, 0) =
      gtiaColor p s chroma luma := by
  rw [generate_gtia_palette, paletteWrites, writeList_append, colorWrites_eq]
  have hdiv : (16 * chroma + luma) / 16 = chroma := by omega
  have hmod : (16 * chroma + luma) % 16 = luma := by omega
  have := writeList_getD_fn (fun j => gtiaColor p s (j / 16) (j % 16)) colorIdx
    (writeList ((List.range 16).map fun l => (l, grayColor l)) (List.replicate 256 (0,0,0)))
    (16 * chroma + luma) (0,0,0)
    (fun j hj => by
      rw [writeList_length, List.length_replicate]
      exact (colorIdx_ge j hj).2)
    (by
      simp only [colorIdx, List.mem_flatMap, List.mem_map, List.mem_range]
      exact ⟨chroma - 1, by omega, luma, h3, by omega⟩)
  rw [this]
  show gtiaColor p s ((16 * chroma + luma) / 16) ((16 * chroma + luma) % 16) =
    gtiaColor p s chroma luma
  rw [hdiv, hmod]

/-- The mutable tuning and playback state of the player (lines 56-80 and
253-269), with the pre-assembled PCM track it owns. -/
structure PlayerState where
  phase_shift : ℝ
  saturation : ℝ
  palette : List (ℤ × ℤ × ℤ)
  show_scanlines : Bool
  enable_blending : Bool
  looping : Bool
  debug_mode : Bool
  track : List ℤ

/-- The freshly constructed player (lines 56-80): default tuning 1.8 / 0.15,
palette generated from it, toggles at their defaults, and the PCM track
assembled once by `_load_process_full`. -/
noncomputable def initPlayer (file : List Nat) (isPal : Bool) (rate : Nat) : PlayerState :=
  { phase_shift := 1.8
    saturation := 0.15
    palette := generate_gtia_palette 1.8 0.15
    show_scanlines := true
    enable_blending := true
    looping := false
    debug_mode := false
    track := pcm_track file isPal rate }

/-- Shift+] (line 263): raise saturation, capped at 2.0, and regenerate. -/
noncomputable def satUp (st : PlayerState) : PlayerState :=
  let s2 := min 2 (st.saturation + 0.05)
  { st with saturation := s2, palette := generate_gtia_palette st.phase_shift s2 }

/-- Shift+[ (line 264): lower saturation, floored at 0.0, and regenerate. -/
noncomputable def satDown (st : PlayerState) : PlayerState :=
  let s2 := max 0 (st.saturation - 0.05)
  { st with saturation := s2, palette := generate_gtia_palette st.phase_shift s2 }

/-- ] (line 267): raise the phase shift and regenerate. -/
noncomputable def phaseUp (st : PlayerState) : PlayerState :=
  let p2 := st.phase_shift + 0.05
  { st with phase_shift := p2, palette := generate_gtia_palette p2 st.saturation }

/-- [ (line 266): lower the phase shift and regenerate. -/
noncomputable def phaseDown (st : PlayerState) : PlayerState :=
  let p2 := st.phase_shift - 0.05
  { st with phase_shift := p2, palette := generate_gtia_palette p2 st.saturation }

/-- S key (line 253): toggle scanlines. -/
def toggleScanlines (st : PlayerState) : PlayerState :=
  { st with show_scanlines := !st.show_scanlines }

/-- B key (line 254): toggle blending. -/
def toggleBlending (st : PlayerState) : PlayerState :=
  { st with enable_blending := !st.enable_blending }

/-- L key (line 251): toggle looping. -/
def toggleLooping (st : PlayerState) : PlayerState :=
  { st with looping := !st.looping }

/-- D key (line 252): toggle the debug overlay. -/
def toggleDebug (st : PlayerState) : PlayerState :=
  { st with debug_mode := !st.debug_mode }

/-- Per-channel average of two pixels, `(a + b) * 0.5` (line 295). -/
def avgPix (a b : ℚ × ℚ × ℚ) : ℚ × ℚ × ℚ :=
  ((a.1 + b.1) * 0.5, (a.2.1 + b.2.1) * 0.5, (a.2.2 + b.2.2) * 0.5)

/-- Horizontal blending of one row (lines 294-296): output column 0 copies
input column 0 (`blended[:, 0] = rgb_wide[:, 0]`), and the remaining columns
average the row with itself shifted by one
(`blended[:, 1:] = (rgb_wide[:, 1:] + rgb_wide[:, :-1]) * 0.5`). -/
def blendRow (row : List (ℚ × ℚ × ℚ)) : List (ℚ × ℚ × ℚ) :=
  match row with
  | [] => []
  | x :: _ => x :: List.zipWith avgPix (row.drop 1) row.dropLast

/-- Modelled from the spec, for comparison with the code: the palette color
formula of claim C3, which rounds each scaled channel instead of truncating
it. -/
noncomputable def specColorEntry (phase_shift saturation : ℝ) (chroma luma : Nat) : ℤ × ℤ × ℤ :=
  let angle : ℝ := ((chroma : ℝ) - 1) * (2 * Real.pi / 15) + phase_shift
  let y : ℝ := (luma : ℝ) / 15
  let s : ℝ := saturation * 0.5
  let u : ℝ := s * Real.cos angle
  let v : ℝ := s * Real.sin angle
  let r : ℝ := y + 1.140 * v
  let g : ℝ := y - 0.395 * u - 0.581 * v
  let b : ℝ := y + 2.032 * u
  (clamp255 (round (r * 255)), clamp255 (round (g * 255)), clamp255 (round (b * 255)))

/-- Modelled from the spec, for comparison with the code: the assignment list
the first audio loop would produce under the stopping rule of claim C4, which
lets iteration `y` run exactly when at least 9 bytes remain at the cursor. -/
def specTapTrace (chunk : List Nat) (o1 o2 : Nat) : List (Nat × Nat) :=
  ((List.range 32).filter fun y => 8192 + 10*y + 9 ≤ chunk.length).flatMap
    fun y => tapWrites chunk o1 o2 y (8192 + 10*y)

/-- Modelled from the spec, for comparison with the code: claim C2 demands
that no trailing data be silently dropped, every post-header byte belonging
to some processed frame chunk (the loader has no failure value to return,
since every slice it takes is in bounds). -/
def specNoSilentDrop (file : List Nat) : Prop :=
  FRAME_SIZE_BYTES * (videoFrames file).length = (rawData file).length

theorem numFrames_eq (file : List Nat) :
    numFrames file =
      (file.length - (if file.length % 8704 ≠ 0 then 8192 else 0)) / 8704 := by
  rw [numFrames, rawData, FRAME_SIZE_BYTES, HEADER_SIZE]
  by_cases h : file.length % 8704 ≠ 0
  · rw [if_pos h, if_pos h, List.length_drop]
  · rw [if_neg h, if_neg h, Nat.sub_zero]

/-- C1: for every input file the number of decoded video frames is
`(file_size - (8192 if file_size mod 8704 /= 0 else 0)) / 8704` (floor
division; for a file shorter than the header the seek lands past the end,
the read is empty and the count is 0, matching truncated subtraction), the
number of audio taps equals the number of video frames, and a 17408-byte
file yields exactly 2 video frames and 2 audio taps. -/
theorem frame_count_matches_formula (isPal : Bool) (file : List Nat) :
    (videoFrames file).length =
      (file.length - (if file.length % 8704 ≠ 0 then 8192 else 0)) / 8704 ∧
    (audioChunks file isPal).length = (videoFrames file).length ∧
    (videoFrames (List.replicate 17408 0)).length = 2 ∧
    (audioChunks (List.replicate 17408 0) isPal).length = 2 := by
  have hv : ∀ g : List Nat, (videoFrames g).length = numFrames g := fun g => by
    rw [videoFrames, List.length_map, List.length_range]
  have ha : ∀ g : List Nat, (audioChunks g isPal).length = numFrames g := fun g => by
    rw [audioChunks, List.length_map, List.length_range]
  have hrep : numFrames (List.replicate 17408 0) = 2 := by
    rw [numFrames_eq, List.length_replicate]
    norm_num
  exact ⟨by rw [hv, numFrames_eq], by rw [hv, ha], by rw [hv, hrep], by rw [ha, hrep]⟩

/-- C2 counterexample: a 16996-byte file (8192-byte header plus one full
8704-byte frame plus 100 trailing bytes) loads without any error into exactly
one frame; the 100-byte incomplete trailing chunk is silently dropped, so the
post-header data is not fully consumed, contrary to the claim that such a
load must fail rather than drop the incomplete frame. -/
theorem truncated_tail_dropped_cx :
    ¬ specNoSilentDrop (List.replicate 16996 0) ∧
      (videoFrames (List.replicate 16996 0)).length = 1 ∧
      (rawData (List.replicate 16996 0)).length = 8804 := by
  have hraw : (rawData (List.replicate 16996 0)).length = 8804 := by
    rw [rawData, FRAME_SIZE_BYTES, HEADER_SIZE, List.length_replicate,
      if_pos (by norm_num)]
    rw [List.length_drop, List.length_replicate]
  have hlen : (videoFrames (List.replicate 16996 0)).length = 1 := by
    rw [videoFrames, List.length_map, List.length_range, numFrames,
      FRAME_SIZE_BYTES, hraw]
  refine ⟨fun h => ?_, hlen, hraw⟩
  rw [specNoSilentDrop, hlen, hraw, FRAME_SIZE_BYTES] at h
  norm_num at h

/-- C2 amended: a trailing frame chunk shorter than 8704 bytes is silently
dropped, not reported: the frame count is the floor of the post-header byte
count over 8704, every chunk the demux loop processes has exactly 8704 bytes
(so no slice is ever out of range), and the dropped remainder is the residue
modulo 8704. -/
theorem chunks_complete_tail_dropped (file : List Nat) (i : Nat)
    (h : i < numFrames file) :
    (chunkAt (rawData file) i).length = FRAME_SIZE_BYTES ∧
    FRAME_SIZE_BYTES * (videoFrames file).length +
        (rawData file).length % FRAME_SIZE_BYTES = (rawData file).length := by
  have hv : (videoFrames file).length = numFrames file := by
    rw [videoFrames, List.length_map, List.length_range]
  rw [numFrames, FRAME_SIZE_BYTES] at h
  constructor
  · rw [chunkAt, List.length_take, List.length_drop, FRAME_SIZE_BYTES]
    omega
  · rw [hv, numFrames, FRAME_SIZE_BYTES]
    omega

/-- Witness for the amended C2 theorem at the 16996-byte file and chunk 0. -/
theorem chunks_complete_tail_dropped_witness :
    0 < numFrames (List.replicate 16996 0) ∧
      (chunkAt (rawData (List.replicate 16996 0)) 0).length = FRAME_SIZE_BYTES := by
  have h0 : 0 < numFrames (List.replicate 16996 0) := by
    rw [numFrames_eq, List.length_replicate]
    norm_num
  exact ⟨h0, (chunks_complete_tail_dropped (List.replicate 16996 0) 0 h0).1⟩

/-- Closed form of the first audio loop: starting at cursor `ptr` with `fuel`
iterations left, iteration `k` runs exactly when the 10 bytes it covers fit
(`ptr + 10k + 10 <= len`), the assignments are the nine tap writes of each
surviving iteration in order, and the cursor advances 10 per iteration. -/
theorem audioPhase1_closed (chunk : List Nat) (o1 o2 : Nat) :
    ∀ fuel y ptr,
      audioPhase1 chunk o1 o2 fuel y ptr =
        (((List.range fuel).filter fun k => ptr + 10*k + 10 ≤ chunk.length).flatMap
           fun k => tapWrites chunk o1 o2 (y+k) (ptr+10*k),
         ptr + 10 * ((List.range fuel).filter fun k =>
           ptr + 10*k + 10 ≤ chunk.length).length) := by
  intro fuel
  induction fuel with
  | zero => intro y ptr; simp [audioPhase1]
  | succ fuel ih =>
      intro y ptr
      show (if chunk.length ≤ ptr + 9 then ([], ptr)
        else
          let rest := audioPhase1 chunk o1 o2 fuel (y+1) (ptr+10)
          (tapWrites chunk o1 o2 y ptr ++ rest.1, rest.2)) = _
      by_cases hg : chunk.length ≤ ptr + 9
      · rw [if_pos hg]
        have hf : ((List.range (fuel+1)).filter fun k =>
            ptr + 10*k + 10 ≤ chunk.length) = [] := by
          apply List.filter_eq_nil_iff.2
          intro k _
          simp only [decide_eq_true_eq]
          omega
        rw [hf]
        simp
      · rw [if_neg hg]
        have hsplit : ((List.range (fuel+1)).filter fun k =>
            ptr + 10*k + 10 ≤ chunk.length) =
            0 :: (((List.range fuel).filter fun k =>
              (ptr+10) + 10*k + 10 ≤ chunk.length).map Nat.succ) := by
          rw [List.range_succ_eq_map, List.filter_cons, List.filter_map]
          rw [if_pos (by simp only [decide_eq_true_eq]; omega)]
          congr 1
          congr 1
          apply List.filter_congr
          intro k _
          simp only [Function.comp_apply, decide_eq_decide]
          omega
        rw [hsplit, ih (y+1) (ptr+10)]
        simp only [List.flatMap_cons, List.flatMap_map, List.length_cons,
          List.length_map, Prod.mk.injEq, Nat.mul_zero, Nat.add_zero]
        constructor
        · congr 1
          apply flatMap_congr_mem
          intro k _
          rw [show y + Nat.succ k = y + 1 + k by omega,
            show ptr + 10 * Nat.succ k = ptr + 10 + 10 * k by omega]
        · omega

/-- C4 amended: each iteration `y` of the first audio loop reads the nine
consecutive bytes at the cursor `8192 + 10y` and assigns them, in order, to
indices `y`, `y+off1`, `y+32+off1`, `y+64+off1`, `y+96+off1`, `y+128+off1`,
`y+160+off1`, `y+off2`, `y+32+off2`, then advances the cursor by 10; the loop
stops early exactly when fewer than 10 bytes remain in the chunk (the guard
`ptr+9 >= len` also breaks when exactly 9 bytes remain, one short of the 9
data bytes plus the skipped sync byte). -/
theorem tap_loop_trace_closed_form (chunk : List Nat) (o1 o2 : Nat) :
    (audioPhase1 chunk o1 o2 32 0 8192).1 =
      ((List.range 32).filter fun y => 8192 + 10*y + 10 ≤ chunk.length).flatMap
        (fun y => tapWrites chunk o1 o2 y (8192 + 10*y)) ∧
    (audioPhase1 chunk o1 o2 32 0 8192).2 =
      8192 + 10 * ((List.range 32).filter fun y =>
        8192 + 10*y + 10 ≤ chunk.length).length := by
  rw [audioPhase1_closed]
  constructor <;> simp

/-- C4 counterexample: on a chunk of 8201 bytes exactly 9 bytes remain at the
initial cursor 8192, so by the claim the first iteration should still read
them; the code breaks immediately (guard `ptr+9 >= len`), producing no
assignment at all, while the claimed stopping rule predicts nine assignments. -/
theorem tap_loop_guard_cx :
    (audioPhase1 (List.replicate 8201 7) 120 52 32 0 8192).1 = [] ∧
      (audioPhase1 (List.replicate 8201 7) 120 52 32 0 8192).1 ≠
        specTapTrace (List.replicate 8201 7) 120 52 := by
  have hlhs : (audioPhase1 (List.replicate 8201 7) 120 52 32 0 8192).1 = [] := by
    rw [show (32:Nat) = 31 + 1 from rfl]
    show ((if (List.replicate 8201 7).length ≤ 8192 + 9 then (([] : List (Nat × Nat)), 8192)
      else
        let rest := audioPhase1 (List.replicate 8201 7) 120 52 31 (0+1) (8192+10)
        (tapWrites (List.replicate 8201 7) 120 52 0 8192 ++ rest.1, rest.2)).1) = []
    rw [if_pos (by rw [List.length_replicate])]
  have hrhs : specTapTrace (List.replicate 8201 7) 120 52 =
      tapWrites (List.replicate 8201 7) 120 52 0 8192 := by
    rw [specTapTrace]
    have hf : ((List.range 32).filter fun y =>
        8192 + 10*y + 9 ≤ (List.replicate (8201:Nat) (7:Nat)).length) = [0] := by
      simp only [List.length_replicate]
      decide
    rw [hf, List.flatMap_cons, List.flatMap_nil, List.append_nil]
  refine ⟨hlhs, ?_⟩
  rw [hlhs, hrhs, tapWrites]
  exact fun h => List.noConfusion h

/-- C5: every produced AudioTap has length exactly `audio_len` (312 for PAL,
262 for NTSC); an index below `audio_len` hit by no assignment of the tap
algorithm still holds the pre-filled silence value 50, and centering (clip to
[0,100] then subtract 50) sends it to 0. -/
theorem audio_tap_length_silence (isPal : Bool) (chunk : List Nat) (i : Nat)
    (hi : i < audio_len isPal) (hw : i ∉ (audioTrace chunk isPal).map Prod.fst) :
    (audioTap chunk isPal).length = audio_len isPal ∧
    (audioTap chunk isPal).getD i 0 = 50 ∧
    centerQ ((audioTap chunk isPal).getD i 0) = 0 := by
  have hle : audio_len isPal ≤ 512 := by cases isPal <;> decide
  have hlen : (audioTap chunk isPal).length = audio_len isPal := by
    rw [audioTap, List.length_take, writeList_length, List.length_replicate]
    omega
  have hval : (audioTap chunk isPal).getD i 0 = 50 := by
    rw [audioTap, List.getD_eq_getElem?_getD, List.getElem?_take, if_pos hi,
      ← List.getD_eq_getElem?_getD, writeList_getD_not_mem _ _ _ _ hw,
      List.getD_eq_getElem?_getD, List.getElem?_replicate,
      if_pos (show i < 512 by omega)]
    rfl
  refine ⟨hlen, hval, ?_⟩
  rw [hval]
  norm_num [centerQ]

/-- Witness for C5 on the empty chunk (whose extraction writes nothing, so
index 0 is unwritten) under the PAL standard. -/
theorem audio_tap_length_silence_witness :
    (0 < audio_len true ∧ 0 ∉ (audioTrace [] true).map Prod.fst) ∧
      (audioTap [] true).getD 0 0 = 50 := by
  have h1 : 0 < audio_len true := by decide
  have h2 : 0 ∉ (audioTrace [] true).map Prod.fst := by decide
  exact ⟨⟨h1, h2⟩, (audio_tap_length_silence true [] 0 h1 h2).2.1⟩

/-- The row value written by the video loop, as a function of the row index. -/
def videoRowVal (chunk : List Nat) (r : Nat) : List Nat :=
  if r % 3 = 0 then sliceL chunk (128*(r/3)+1) (128*(r/3)+41)
  else if r % 3 = 1 then sliceL chunk (128*(r/3)+45) (128*(r/3)+85)
  else sliceL chunk (128*(r/3)+88) (128*(r/3)+128)

/-- The row indices written by the video loop, in program order. -/
def videoIdx : List Nat := (List.range 64).flatMap fun b => [3*b, 3*b+1, 3*b+2]

theorem videoIdx_lt (j : Nat) (hj : j ∈ videoIdx) : j < 192 := by
  simp only [videoIdx, List.mem_flatMap, List.mem_range] at hj
  obtain ⟨b, hb, hj⟩ := hj
  simp only [List.mem_cons, List.not_mem_nil, or_false] at hj
  omega

theorem videoWrites_eq (chunk : List Nat) :
    videoWrites chunk = videoIdx.map fun r => (r, videoRowVal chunk r) := by
  rw [videoIdx, List.map_flatMap]
  apply flatMap_congr_mem
  intro b _
  have h0m : (3*b) % 3 = 0 := by omega
  have h0d : (3*b) / 3 = b := by omega
  have h1m : (3*b+1) % 3 = 1 := by omega
  have h1d : (3*b+1) / 3 = b := by omega
  have h2m : (3*b+2) % 3 = 2 := by omega
  have h2d : (3*b+2) / 3 = b := by omega
  simp only [List.map_cons, List.map_nil, videoRowVal, h0m, h0d, h1m, h1d, h2m, h2d]
  norm_num

theorem sliceL_sliceL (c : List Nat) (a u v : Nat) (huv : u ≤ v) (hv : v ≤ 128) :
    sliceL (sliceL c a (a+128)) u v = sliceL c (a+u) (a+v) := by
  rw [sliceL, sliceL, sliceL, show a + 128 - a = 128 by omega,
    List.drop_take, List.take_take, List.drop_drop,
    show a + v - (a + u) = v - u by omega,
    show (v - u) ⊓ (128 - u) = v - u by omega]

/-- C8: for every full 8704-byte frame chunk, the extracted 192x40 matrix has,
for each sub-block `b` in 0..63 (bytes [128b, 128b+128) of the chunk), row
`3b` equal to sub-block bytes [1, 41), row `3b+1` equal to bytes [45, 85),
and row `3b+2` equal to bytes [88, 128). -/
theorem video_rows_from_subblocks (chunk : List Nat) (hlen : chunk.length = 8704)
    (b : Nat) (hb : b < 64) :
    (videoExtract chunk).getD (3*b) [] =
      sliceL (sliceL chunk (128*b) (128*b+128)) 1 41 ∧
    (videoExtract chunk).getD (3*b+1) [] =
      sliceL (sliceL chunk (128*b) (128*b+128)) 45 85 ∧
    (videoExtract chunk).getD (3*b+2) [] =
      sliceL (sliceL chunk (128*b) (128*b+128)) 88 128 := by
  have key : ∀ r ∈ videoIdx, (videoExtract chunk).getD r [] = videoRowVal chunk r := by
    intro r hr
    rw [videoExtract, videoWrites_eq]
    exact writeList_getD_fn (videoRowVal chunk) videoIdx videoInit r []
      (fun j hj => by rw [videoInit, List.length_replicate]; exact videoIdx_lt j hj) hr
  have hmem : ∀ k : Nat, k < 3 → 3*b + k ∈ videoIdx := by
    intro k hk
    simp only [videoIdx, List.mem_flatMap, List.mem_range]
    refine ⟨b, hb, ?_⟩
    interval_cases k <;> simp
  have h0m : (3*b) % 3 = 0 := by omega
  have h0d : (3*b) / 3 = b := by omega
  have h1m : (3*b+1) % 3 = 1 := by omega
  have h1d : (3*b+1) / 3 = b := by omega
  have h2m : (3*b+2) % 3 = 2 := by omega
  have h2d : (3*b+2) / 3 = b := by omega
  have hm0 : 3*b ∈ videoIdx := by simpa using hmem 0 (by omega)
  refine ⟨?_, ?_, ?_⟩
  · rw [key _ hm0, videoRowVal, h0m, h0d, if_pos rfl,
      sliceL_sliceL chunk (128*b) 1 41 (by omega) (by omega)]
  · rw [key _ (hmem 1 (by omega)), videoRowVal, h1m, h1d,
      if_neg (by omega), if_pos rfl,
      sliceL_sliceL chunk (128*b) 45 85 (by omega) (by omega)]
  · rw [key _ (hmem 2 (by omega)), videoRowVal, h2m, h2d,
      if_neg (by omega), if_neg (by omega),
      sliceL_sliceL chunk (128*b) 88 128 (by omega) (by omega)]

/-- Witness for C8 at the all-zero 8704-byte chunk and sub-block 0. -/
theorem video_rows_from_subblocks_witness :
    ((List.replicate 8704 0 : List Nat).length = 8704 ∧ (0:Nat) < 64) ∧
      (videoExtract (List.replicate 8704 0)).getD (3*0) [] =
        sliceL (sliceL (List.replicate 8704 0) (128*0) (128*0+128)) 1 41 := by
  have h : (List.replicate (8704:Nat) (0:Nat)).length = 8704 := by
    rw [List.length_replicate]
  exact ⟨⟨h, by norm_num⟩,
    (video_rows_from_subblocks (List.replicate 8704 0) h 0 (by norm_num)).1⟩

/-- C9: with blending enabled, output column 0 of a row equals input column 0
unchanged, and every output column `i > 0` equals, per channel, the average of
input columns `i` and `i-1`. -/
theorem blend_row_avg (row : List (ℚ × ℚ × ℚ)) (i : Nat)
    (h0 : 0 < i) (hi : i < row.length) :
    (blendRow row).getD 0 (0,0,0) = row.getD 0 (0,0,0) ∧
    ((blendRow row).getD i (0,0,0)).1 =
      ((row.getD i (0,0,0)).1 + (row.getD (i-1) (0,0,0)).1) / 2 ∧
    ((blendRow row).getD i (0,0,0)).2.1 =
      ((row.getD i (0,0,0)).2.1 + (row.getD (i-1) (0,0,0)).2.1) / 2 ∧
    ((blendRow row).getD i (0,0,0)).2.2 =
      ((row.getD i (0,0,0)).2.2 + (row.getD (i-1) (0,0,0)).2.2) / 2 := by
  obtain ⟨j, rfl⟩ : ∃ j, i = j + 1 := ⟨i - 1, by omega⟩
  match row, hi with
  | [], hi => simp at hi
  | x :: t, hi =>
  have hjt : j < t.length := by
    simp only [List.length_cons] at hi
    omega
  have hzlen : j < (List.zipWith avgPix ((x :: t).drop 1) (x :: t).dropLast).length := by
    simp only [List.length_zipWith, List.length_drop, List.length_dropLast,
      List.length_cons]
    omega
  have hstep : (blendRow (x :: t)).getD (j+1) (0,0,0) =
      avgPix ((x :: t).getD (j+1) (0,0,0)) ((x :: t).getD j (0,0,0)) := by
    rw [blendRow, List.getD_cons_succ,
      List.getD_eq_getElem _ _ hzlen, List.getElem_zipWith]
    congr 1
    · rw [List.getD_eq_getElem _ _ (show j+1 < (x :: t).length by
        simp only [List.length_cons]; omega), List.getElem_cons_succ]
      rfl
    · rw [List.getElem_dropLast,
        List.getD_eq_getElem _ _ (show j < (x :: t).length by
          simp only [List.length_cons]; omega)]
  refine ⟨by rw [blendRow]; simp [List.getD_cons_zero], ?_, ?_, ?_⟩ <;>
    simp only [Nat.add_sub_cancel] <;> rw [hstep, avgPix] <;> ring

/-- Witness for C9 on a concrete two-pixel row at column 1. -/
theorem blend_row_avg_witness :
    ((0:Nat) < 1 ∧ 1 < ([((1:ℚ),(2:ℚ),(3:ℚ)), ((5:ℚ),(6:ℚ),(7:ℚ))]).length) ∧
      ((blendRow [((1:ℚ),(2:ℚ),(3:ℚ)), ((5:ℚ),(6:ℚ),(7:ℚ))]).getD 1 (0,0,0)).1 =
        (([((1:ℚ),(2:ℚ),(3:ℚ)), ((5:ℚ),(6:ℚ),(7:ℚ))].getD 1 (0,0,0)).1 +
          ([((1:ℚ),(2:ℚ),(3:ℚ)), ((5:ℚ),(6:ℚ),(7:ℚ))].getD (1-1) (0,0,0)).1) / 2 :=
  ⟨⟨by norm_num, by simp⟩,
    (blend_row_avg [((1:ℚ),(2:ℚ),(3:ℚ)), ((5:ℚ),(6:ℚ),(7:ℚ))] 1
      (by norm_num) (by simp)).2.1⟩

/-- C3 counterexample: at phase_shift 0, saturation 1/5, chroma 1, luma 0 the
angle is 0 and the blue channel scales to 51.816; the code truncates (int())
to 51 while the claim rounds to 52, so the palette entry differs from the
claimed formula. -/
theorem palette_trunc_vs_round_cx :
    (generate_gtia_palette 0 (1/5)).getD ((1 <<< 4) ||| 0) (0,0,0) = (0, 0, 51) ∧
    specColorEntry 0 (1/5) 1 0 = (0, 0, 52) ∧
    (generate_gtia_palette 0 (1/5)).getD ((1 <<< 4) ||| 0) (0,0,0) ≠
      specColorEntry 0 (1/5) 1 0 := by
  have h1 : (generate_gtia_palette 0 (1/5)).getD ((1 <<< 4) ||| 0) (0,0,0) =
      gtiaColor 0 (1/5) 1 0 := by
    rw [show ((1 <<< 4) ||| 0 : Nat) = 16 * 1 + 0 by decide]
    exact palette_getD_color 0 (1/5) 1 0 (by norm_num) (by norm_num) (by norm_num)
  have h2 : gtiaColor 0 (1/5) 1 0 = (0, 0, 51) := by
    simp only [gtiaColor]
    rw [show (((1:ℕ):ℝ) - 1) * (2 * Real.pi / 15) + 0 = 0 by push_cast; ring]
    rw [Real.cos_zero, Real.sin_zero]
    norm_num [truncR, clamp255]
  have h3 : specColorEntry 0 (1/5) 1 0 = (0, 0, 52) := by
    simp only [specColorEntry]
    rw [show (((1:ℕ):ℝ) - 1) * (2 * Real.pi / 15) + 0 = 0 by push_cast; ring]
    rw [Real.cos_zero, Real.sin_zero]
    rw [round_eq, round_eq, round_eq]
    norm_num [clamp255]
  exact ⟨h1.trans h2, h3, by rw [h1.trans h2, h3]; decide⟩

/-- C3 amended: for every chroma in 1..15, luma in 0..15 and every
(phase_shift, saturation), the palette entry at index `(chroma<<4)|luma` is
obtained from angle, y, sat, u, v and the YUV-to-RGB formula of the claim,
with each channel scaled by 255, truncated toward zero (Python int(), not
rounded) and clamped to [0, 255]. -/
theorem palette_color_formula_trunc (phase_shift saturation : ℝ) (chroma luma : Nat)
    (h1 : 1 ≤ chroma) (h2 : chroma ≤ 15) (h3 : luma ≤ 15) :
    (generate_gtia_palette phase_shift saturation).getD ((chroma <<< 4) ||| luma) (0,0,0) =
      (clamp255 (truncR (((luma:ℝ)/15 + 1.140 * ((saturation * 0.5) *
          Real.sin (((chroma:ℝ)-1) * (2*Real.pi/15) + phase_shift))) * 255)),
       clamp255 (truncR (((luma:ℝ)/15 - 0.395 * ((saturation * 0.5) *
          Real.cos (((chroma:ℝ)-1) * (2*Real.pi/15) + phase_shift)) - 0.581 * ((saturation * 0.5) *
          Real.sin (((chroma:ℝ)-1) * (2*Real.pi/15) + phase_shift))) * 255)),
       clamp255 (truncR (((luma:ℝ)/15 + 2.032 * ((saturation * 0.5) *
          Real.cos (((chroma:ℝ)-1) * (2*Real.pi/15) + phase_shift))) * 255))) := by
  rw [lor_sixteen chroma luma (by omega),
    palette_getD_color phase_shift saturation chroma luma h1 h2 (by omega)]
  rfl

/-- Witness for the amended C3 theorem at phase 1, saturation 1, chroma 2,
luma 3. -/
theorem palette_color_formula_trunc_witness :
    ((1:Nat) ≤ 2 ∧ (2:Nat) ≤ 15 ∧ (3:Nat) ≤ 15) ∧
      (generate_gtia_palette 1 1).getD ((2 <<< 4) ||| 3) (0,0,0) =
        gtiaColor 1 1 2 3 := by
  refine ⟨⟨by norm_num, by norm_num, by norm_num⟩, ?_⟩
  rw [palette_color_formula_trunc 1 1 2 3 (by norm_num) (by norm_num) (by norm_num)]
  rfl

/-- C7: for every (phase_shift, saturation) and luma in 0..15, the palette
entry at index luma (chroma 0) is the gray triplet (v, v, v) with
v = round(luma/15 x 255) — here truncation and rounding agree because
luma/15 x 255 = 17 x luma exactly — and the entry does not depend on
phase_shift or saturation. -/
theorem palette_gray_round_independent (p s p2 s2 : ℝ) (luma : Nat) (h : luma ≤ 15) :
    (generate_gtia_palette p s).getD luma (0,0,0) =
      (round (((luma:ℝ)/15) * 255), round (((luma:ℝ)/15) * 255),
        round (((luma:ℝ)/15) * 255)) ∧
    (generate_gtia_palette p s).getD luma (0,0,0) =
      (generate_gtia_palette p2 s2).getD luma (0,0,0) := by
  have key : ∀ q r : ℝ, (generate_gtia_palette q r).getD luma (0,0,0) = grayColor luma :=
    fun q r => palette_getD_gray q r luma (by omega)
  have hv : truncR (((luma:ℝ)/15) * 255) = round (((luma:ℝ)/15) * 255) := by
    rw [show ((luma:ℝ)/15) * 255 = ((17 * luma : ℕ) : ℝ) by push_cast; ring]
    rw [truncR, if_pos (by positivity), Int.floor_natCast, round_natCast]
  have hval : grayColor luma =
      (round (((luma:ℝ)/15) * 255), round (((luma:ℝ)/15) * 255),
        round (((luma:ℝ)/15) * 255)) := by
    simp only [grayColor]
    rw [hv]
  exact ⟨(key p s).trans hval, (key p s).trans (key p2 s2).symm⟩

/-- Witness for C7 at luma 7 under two different tuning pairs. -/
theorem palette_gray_round_independent_witness :
    (7:Nat) ≤ 15 ∧
      (generate_gtia_palette 3 4).getD 7 (0,0,0) =
        (generate_gtia_palette 5 6).getD 7 (0,0,0) :=
  ⟨by norm_num, (palette_gray_round_independent 3 4 5 6 7 (by norm_num)).2⟩

/-- C6: the mono PCM track length is `int(num_frames / fps * rate)`, which is
within 1 of `round(num_frames / fps * rate)` (fps = 49.86 for PAL, 59.92 for
NTSC); the track is computed once at load and no phase, saturation or toggle
tuning operation changes it. -/
theorem pcm_len_round_tuning_stable (file : List Nat) (isPal : Bool) (rate : Nat) :
    (pcm_track file isPal rate).length = tgt_samples file isPal rate ∧
    |(tgt_samples file isPal rate : ℤ) -
        round (((numFrames file : ℚ) / fps isPal) * rate)| ≤ 1 ∧
    (initPlayer file isPal rate).track = pcm_track file isPal rate ∧
    (∀ st : PlayerState,
      (satUp st).track = st.track ∧ (satDown st).track = st.track ∧
      (phaseUp st).track = st.track ∧ (phaseDown st).track = st.track ∧
      (toggleScanlines st).track = st.track ∧ (toggleBlending st).track = st.track ∧
      (toggleLooping st).track = st.track ∧ (toggleDebug st).track = st.track) := by
  refine ⟨?_, ?_, rfl, fun st => ⟨rfl, rfl, rfl, rfl, rfl, rfl, rfl, rfl⟩⟩
  · have hlin : ∀ n : Nat, (linspaceQ n).length = n := fun n => by
      rw [linspaceQ, List.length_map, List.length_range]
    rw [pcm_track, List.length_map, scaledAudio, List.length_map, resampled,
      List.length_map, hlin]
  · have hf : 0 < fps isPal := by cases isPal <;> norm_num [fps]
    have hx0 : 0 ≤ ((numFrames file : ℚ) / fps isPal) * rate := by positivity
    set x : ℚ := ((numFrames file : ℚ) / fps isPal) * rate with hxdef
    have htgt : (tgt_samples file isPal rate : ℤ) = ⌊x⌋ := by
      rw [tgt_samples]
      exact Int.toNat_of_nonneg (Int.floor_nonneg.2 hx0)
    have hr : round x = ⌊x + 1/2⌋ := round_eq x
    have hlow : ⌊x⌋ ≤ ⌊x + 1/2⌋ := Int.floor_le_floor (by linarith)
    have hhigh : ⌊x + 1/2⌋ ≤ ⌊x⌋ + 1 := by
      have := Int.floor_le_floor (show x + 1/2 ≤ x + 1 by linarith)
      rwa [Int.floor_add_one] at this
    rw [htgt, hr, abs_le]
    omega

theorem centerQ_abs_le (v : Nat) : |centerQ v| ≤ 50 := by
  rw [centerQ, abs_le]
  constructor
  · have h2 : (0:ℚ) ≤ min 100 (max 0 (v:ℚ)) := le_min (by norm_num) (le_max_left _ _)
    linarith
  · have h3 : min 100 (max 0 (v:ℚ)) ≤ 100 := min_le_left _ _
    linarith

/-- Every value of the linear interpolation is bounded by any bound on the
ordinates: the interior case is a convex combination of two neighbors. -/
theorem interpPt_abs_le (B : ℚ) (hB : 0 ≤ B) (t : ℚ) :
    ∀ ps : List (ℚ × ℚ), (∀ p ∈ ps, |p.2| ≤ B) → |interpPt t ps| ≤ B := by
  intro ps
  induction ps with
  | nil => intro _; simpa [interpPt] using hB
  | cons p tail ih =>
      intro hp
      cases tail with
      | nil =>
          simpa [interpPt] using hp p (List.mem_cons_self _ _)
      | cons q rest =>
          rw [interpPt]
          split_ifs with h1 h2
          · exact hp p (List.mem_cons_self _ _)
          · have hpt : p.1 < t := not_le.1 h1
            have hpq : p.1 < q.1 := lt_of_lt_of_le hpt h2
            have hr0 : 0 ≤ (t - p.1) / (q.1 - p.1) :=
              div_nonneg (by linarith) (by linarith)
            have hr1 : (t - p.1) / (q.1 - p.1) ≤ 1 :=
              (div_le_one (by linarith)).2 (by linarith)
            have hp2 : |p.2| ≤ B := hp p (List.mem_cons_self _ _)
            have hq2 : |q.2| ≤ B := hp q (List.mem_cons_of_mem _ (List.mem_cons_self _ _))
            set rr : ℚ := (t - p.1) / (q.1 - p.1) with hrr
            have hval : p.2 + (q.2 - p.2) * rr = (1 - rr) * p.2 + rr * q.2 := by ring
            rw [hval]
            calc |(1 - rr) * p.2 + rr * q.2| ≤ |(1 - rr) * p.2| + |rr * q.2| :=
                  abs_add _ _
              _ = (1 - rr) * |p.2| + rr * |q.2| := by
                  rw [abs_mul, abs_mul, abs_of_nonneg (by linarith : (0:ℚ) ≤ 1 - rr),
                    abs_of_nonneg hr0]
              _ ≤ (1 - rr) * B + rr * B := by
                  exact add_le_add
                    (mul_le_mul_of_nonneg_left hp2 (by linarith))
                    (mul_le_mul_of_nonneg_left hq2 hr0)
              _ = B := by ring
          · exact ih fun a ha => hp a (List.mem_cons_of_mem _ ha)

/-- Truncation toward zero does not increase magnitude past an integer bound. -/
theorem truncQ_abs_le (q : ℚ) (B : ℤ) (h : |q| ≤ (B:ℚ)) :
    |truncQ q| ≤ B := by
  rw [abs_le] at h
  rw [truncQ]
  split_ifs with h0
  · rw [abs_of_nonneg (Int.floor_nonneg.2 h0)]
    have hfl := Int.floor_le_floor h.2
    rwa [Int.floor_intCast] at hfl
  · push_neg at h0
    have hq : (0:ℚ) ≤ -q := by linarith
    rw [abs_neg, abs_of_nonneg (Int.floor_nonneg.2 hq)]
    have hfl := Int.floor_le_floor (show -q ≤ (B:ℚ) by linarith)
    rwa [Int.floor_intCast] at hfl

/-- C10: every sample of the assembled mono 16-bit PCM track has magnitude at
most 25000 — centered taps lie in [-50, 50], the interpolation takes convex
combinations of them, and the gain is 500 — so the clamp to [-32000, 32000]
never changes any sample value.  Out-of-range indices read the default 0,
which also satisfies both properties. -/
theorem pcm_bounded_clip_identity (file : List Nat) (isPal : Bool) (rate : Nat)
    (i : Nat) :
    |(pcm_track file isPal rate).getD i 0| ≤ 25000 ∧
    clip32 ((scaledAudio file isPal rate).getD i 0) =
      (scaledAudio file isPal rate).getD i 0 := by
  have hraw : ∀ x ∈ raw_audio file isPal, |x| ≤ 50 := by
    intro x hx
    rw [raw_audio] at hx
    obtain ⟨v, _, rfl⟩ := List.mem_map.1 hx
    exact centerQ_abs_le v
  have hres : ∀ s ∈ resampled file isPal rate, |s| ≤ 50 := by
    intro s hs
    rw [resampled] at hs
    obtain ⟨t, _, rfl⟩ := List.mem_map.1 hs
    apply interpPt_abs_le 50 (by norm_num) t
    intro p hp
    obtain ⟨a, b⟩ := p
    exact hraw b (List.of_mem_zip hp).2
  have hscaled : ∀ s ∈ scaledAudio file isPal rate, |s| ≤ 25000 := by
    intro s hs
    rw [scaledAudio] at hs
    obtain ⟨x, hx, rfl⟩ := List.mem_map.1 hs
    have hx50 := hres x hx
    calc |x * 500| = |x| * 500 := by rw [abs_mul]; norm_num
      _ ≤ 50 * 500 := mul_le_mul_of_nonneg_right hx50 (by norm_num)
      _ = 25000 := by norm_num
  by_cases hi : i < (scaledAudio file isPal rate).length
  · have hmem : (scaledAudio file isPal rate).getD i 0 ∈ scaledAudio file isPal rate := by
      rw [List.getD_eq_getElem _ _ hi]
      exact List.getElem_mem hi
    have hs := hscaled _ hmem
    rw [abs_le] at hs
    have hclip : clip32 ((scaledAudio file isPal rate).getD i 0) =
        (scaledAudio file isPal rate).getD i 0 := by
      rw [clip32, min_eq_right (by linarith), max_eq_right (by linarith)]
    have hpcm : (pcm_track file isPal rate).getD i 0 =
        truncQ (clip32 ((scaledAudio file isPal rate).getD i 0)) := by
      rw [pcm_track, List.getD_eq_getElem?_getD, List.getElem?_map,
        List.getD_eq_getElem _ _ hi, List.getElem?_eq_getElem hi]
      rfl
    refine ⟨?_, hclip⟩
    rw [hpcm, hclip]
    exact truncQ_abs_le _ 25000 (by rw [abs_le]; exact hs)
  · have hip : ¬ i < (pcm_track file isPal rate).length := by
      rwa [pcm_track, List.length_map]
    have h1 : (pcm_track file isPal rate).getD i 0 = 0 := by
      rw [List.getD_eq_getElem?_getD, List.getElem?_eq_none (by omega)]
      rfl
    have h2 : (scaledAudio file isPal rate).getD i 0 = 0 := by
      rw [List.getD_eq_getElem?_getD, List.getElem?_eq_none (by omega)]
      rfl
    rw [h1, h2]
    norm_num [clip32]
